import Mathlib

/-!
Verification of a minimal grep utility (`src/src/lib.rs`).

Shallow embedding of the Rust sources. Strings are modelled as `List Char`
(`Str`); Rust's `str::contains` is substring containment, modelled by the
decidable `List.IsInfix` predicate; `str::to_lowercase` is modelled as a
per-character lower-casing map. File I/O is modelled by an abstract file
system `FS` mapping a file name to either an open error or a list of line
reads, each of which is itself either a read error or a line, mirroring
`File::open(..)?` followed by `BufReader::lines()` yielding
`Result<String, Error>` per line.
-/

set_option autoImplicit false

namespace Grep

/-- Strings, modelled as lists of characters. -/
abbrev Str := List Char

/-- I/O errors; only their identity matters to the embedding. -/
abbrev IOError := Nat

/-- The `Flags` struct of the source, field for field (including the
redundant `invert` field). -/
structure Flags where
  line_numbers : Bool
  print_file_names : Bool
  case_insensitive : Bool
  invert_match : Bool
  match_entire_line : Bool
  invert : Bool
deriving Repr, DecidableEq

/-- `Flags::new`: each field is set from the presence of its token in the
given flag list. -/
def Flags.new (flags : List Str) : Flags where
  line_numbers := flags.contains ("-n".data)
  print_file_names := flags.contains ("-l".data)
  case_insensitive := flags.contains ("-i".data)
  invert_match := flags.contains ("-v".data)
  match_entire_line := flags.contains ("-x".data)
  invert := flags.contains ("-v".data)

/-- Model of Rust `str::to_lowercase`: lower-case each character. -/
def toLowercase (s : Str) : Str := s.map Char.toLower

/-- Model of Rust `str::contains`: `contains s p` holds iff `p` occurs in
`s` as a contiguous substring. -/
def containsSub (s p : Str) : Bool := decide (p <:+: s)

/-- `line_matches` from the source: lower-case both sides when
`case_insensitive`; whole-line equality when `match_entire_line`, substring
containment otherwise; negate when `invert_match`. -/
def line_matches (line pattern : Str) (flags : Flags) : Bool :=
  let line := if flags.case_insensitive then toLowercase line else line
  let pattern := if flags.case_insensitive then toLowercase pattern else pattern
  let m := if flags.match_entire_line then line == pattern
           else containsSub line pattern
  if flags.invert_match then !m else m

/-- Decimal rendering of a line number, as Rust `format!` renders a `usize`. -/
def natStr (n : Nat) : Str := (Nat.repr n).data

/-- `format_result` from the source. `files` is the full input file list;
only its length is consulted. -/
def format_result (file_name : Str) (line_number : Nat) (line : Str)
    (flags : Flags) (files : List Str) : Str :=
  if flags.print_file_names then
    file_name
  else if flags.line_numbers then
    if files.length > 1 then
      file_name ++ ':' :: natStr line_number ++ ':' :: line
    else
      natStr line_number ++ ':' :: line
  else
    if files.length > 1 then
      file_name ++ ':' :: line
    else
      line

/-- One line read: either a line or an I/O error, as
`BufReader::lines()` yields `Result<String, Error>`. -/
abbrev LineRead := Except IOError Str

/-- Abstract file system: opening a file either fails or yields the
sequence of line reads. -/
abbrev FS := Str → Except IOError (List LineRead)

/-- The inner line loop of `grep`: walk the line reads of one file,
propagating the first read error; `index` is the 0-based enumeration
counter, `file_has_match` the per-file cap flag, `acc` the results
accumulated so far (across files). -/
def grepLinesGo (pattern : Str) (flags : Flags) (files : List Str)
    (file_name : Str) :
    List LineRead → Nat → Bool → List Str → Except IOError (List Str)
  | [], _, _, acc => Except.ok acc
  | Except.error e :: _, _, _, _ => Except.error e
  | Except.ok line :: rest, index, file_has_match, acc =>
    let line_number := index + 1
    if line_matches line pattern flags then
      if flags.print_file_names then
        if !file_has_match then
          grepLinesGo pattern flags files file_name rest (index + 1) true
            (acc ++ [file_name])
        else
          grepLinesGo pattern flags files file_name rest (index + 1)
            file_has_match acc
      else
        grepLinesGo pattern flags files file_name rest (index + 1)
          file_has_match
          (acc ++ [format_result file_name line_number line flags files])
    else
      grepLinesGo pattern flags files file_name rest (index + 1)
        file_has_match acc

/-- The outer file loop of `grep`: open each file in order, propagating
open errors and line-read errors. -/
def grepGo (fs : FS) (pattern : Str) (flags : Flags) (files : List Str) :
    List Str → List Str → Except IOError (List Str)
  | [], acc => Except.ok acc
  | file_name :: rest, acc =>
    match fs file_name with
    | Except.error e => Except.error e
    | Except.ok ls =>
      match grepLinesGo pattern flags files file_name ls 0 false acc with
      | Except.error e => Except.error e
      | Except.ok acc2 => grepGo fs pattern flags files rest acc2

/-- `grep` from the source, relative to an abstract file system. -/
def grep (fs : FS) (pattern : Str) (flags : Flags) (files : List Str) :
    Except IOError (List Str) :=
  grepGo fs pattern flags files files []

/-- An error-free file system built from a content map: every file opens
and every line reads successfully. -/
def pureFS (content : Str → List Str) : FS :=
  fun f => Except.ok ((content f).map Except.ok)

/-- Declarative per-file output: in filenames-only mode, the file name
once if any line matches; otherwise the formatted matching lines in file
order (1-based line numbers). -/
def perFileOutput (pattern : Str) (flags : Flags) (files : List Str)
    (file_name : Str) (ls : List Str) : List Str :=
  if flags.print_file_names then
    if ls.any (fun l => line_matches l pattern flags) then [file_name] else []
  else
    ((ls.enum).filter fun p => line_matches p.2 pattern flags).map
      fun p => format_result file_name (p.1 + 1) p.2 flags files

/-- First error of a file's line reads, in order. -/
def lineError : List LineRead → Option IOError
  | [] => none
  | Except.error e :: _ => some e
  | Except.ok _ :: rest => lineError rest

/-- First error hit when opening then reading a file. -/
def fileError (fs : FS) (file_name : Str) : Option IOError :=
  match fs file_name with
  | Except.error e => some e
  | Except.ok ls => lineError ls

/-- First error hit when processing the files in order. -/
def firstError (fs : FS) : List Str → Option IOError
  | [] => none
  | file_name :: rest =>
    match fileError fs file_name with
    | some e => some e
    | none => firstError fs rest

/-- The successfully read lines of a file's line reads. -/
def okLines : List LineRead → List Str
  | [] => []
  | Except.ok l :: rest => l :: okLines rest
  | Except.error _ :: rest => okLines rest

/-- The lines of a file under `fs`, ignoring errors. -/
def contentOf (fs : FS) (file_name : Str) : List Str :=
  match fs file_name with
  | Except.ok ls => okLines ls
  | Except.error _ => []

/-- Modelled from the spec: the inner line loop of the other historical
revision of `grep` (not present under src), which in filenames-only mode
appends the file name and breaks out of the line loop on the first
matching line instead of scanning the remaining lines with a cap flag. -/
def grepEarlyLinesGo (pattern : Str) (flags : Flags) (files : List Str)
    (file_name : Str) :
    List LineRead → Nat → List Str → Except IOError (List Str)
  | [], _, acc => Except.ok acc
  | Except.error e :: _, _, _ => Except.error e
  | Except.ok line :: rest, index, acc =>
    if line_matches line pattern flags then
      if flags.print_file_names then
        Except.ok (acc ++ [file_name])
      else
        grepEarlyLinesGo pattern flags files file_name rest (index + 1)
          (acc ++ [format_result file_name (index + 1) line flags files])
    else
      grepEarlyLinesGo pattern flags files file_name rest (index + 1) acc

/-- Modelled from the spec: the file loop of the early-break revision,
identical to the implemented one except for the inner loop it calls. -/
def grepEarlyGo (fs : FS) (pattern : Str) (flags : Flags) (files : List Str) :
    List Str → List Str → Except IOError (List Str)
  | [], acc => Except.ok acc
  | file_name :: rest, acc =>
    match fs file_name with
    | Except.error e => Except.error e
    | Except.ok ls =>
      match grepEarlyLinesGo pattern flags files file_name ls 0 acc with
      | Except.error e => Except.error e
      | Except.ok acc2 => grepEarlyGo fs pattern flags files rest acc2

/-- Modelled from the spec: the early-break revision of `grep`. -/
def grepEarly (fs : FS) (pattern : Str) (flags : Flags) (files : List Str) :
    Except IOError (List Str) :=
  grepEarlyGo fs pattern flags files files []

/-- Concrete flags for witnesses: only `-l` (filenames-only). -/
def wFlagsL : Flags := Flags.new [("-l".data)]

/-- Concrete flags for witnesses: only `-i` (case-insensitive). -/
def wFlagsI : Flags := Flags.new [("-i".data)]

/-- Concrete two-file content map for witnesses. -/
def wContent : Str → List Str := fun fn =>
  if fn = ("a.txt".data) then [("Cats".data), ("dog".data)]
  else if fn = ("b.txt".data) then [("cat".data)]
  else []

/-- Accumulator-free form of the inner line loop: the outputs it appends,
starting at enumeration index `index` with cap flag `file_has_match`. -/
def perFileFrom (pattern : Str) (flags : Flags) (files : List Str)
    (file_name : Str) : List Str → Nat → Bool → List Str
  | [], _, _ => []
  | line :: rest, index, file_has_match =>
    if line_matches line pattern flags then
      if flags.print_file_names then
        if !file_has_match then
          file_name :: perFileFrom pattern flags files file_name rest (index + 1) true
        else
          perFileFrom pattern flags files file_name rest (index + 1) file_has_match
      else
        format_result file_name (index + 1) line flags files ::
          perFileFrom pattern flags files file_name rest (index + 1) file_has_match
    else
      perFileFrom pattern flags files file_name rest (index + 1) file_has_match

theorem grepLinesGo_ok (pattern : Str) (flags : Flags) (files : List Str)
    (file_name : Str) (ls : List Str) :
    ∀ (index : Nat) (file_has_match : Bool) (acc : List Str),
      grepLinesGo pattern flags files file_name (ls.map Except.ok) index
        file_has_match acc =
      Except.ok (acc ++ perFileFrom pattern flags files file_name ls index
        file_has_match) := by
  induction ls with
  | nil => intro index fhm acc; simp [grepLinesGo, perFileFrom]
  | cons line rest ih =>
    intro index fhm acc
    simp only [List.map_cons, grepLinesGo, perFileFrom]
    by_cases hm : line_matches line pattern flags
    · simp only [hm, if_true]
      by_cases hp : flags.print_file_names
      · by_cases hf : fhm
        · simp [hp, hf, ih]
        · simp [hp, hf, ih]
      · simp [hp, ih]
    · simp [hm, ih]

theorem perFileFrom_capped (pattern : Str) (flags : Flags) (files : List Str)
    (file_name : Str) (ls : List Str) (hp : flags.print_file_names = true) :
    ∀ index : Nat,
      perFileFrom pattern flags files file_name ls index true = [] := by
  induction ls with
  | nil => intro index; simp [perFileFrom]
  | cons line rest ih =>
    intro index
    by_cases hm : line_matches line pattern flags <;>
      simp [perFileFrom, hm, hp, ih]

theorem perFileFrom_names (pattern : Str) (flags : Flags) (files : List Str)
    (file_name : Str) (ls : List Str) (hp : flags.print_file_names = true) :
    ∀ index : Nat,
      perFileFrom pattern flags files file_name ls index false =
        if ls.any (fun l => line_matches l pattern flags) then [file_name]
        else [] := by
  induction ls with
  | nil => intro index; simp [perFileFrom]
  | cons line rest ih =>
    intro index
    by_cases hm : line_matches line pattern flags
    · simp [perFileFrom, hm, hp,
        perFileFrom_capped pattern flags files file_name rest hp]
    · simp [perFileFrom, hm, hp, ih]

theorem perFileFrom_lines (pattern : Str) (flags : Flags) (files : List Str)
    (file_name : Str) (ls : List Str) (hp : flags.print_file_names = false) :
    ∀ (index : Nat) (file_has_match : Bool),
      perFileFrom pattern flags files file_name ls index file_has_match =
        ((List.enumFrom index ls).filter
            fun p => line_matches p.2 pattern flags).map
          fun p => format_result file_name (p.1 + 1) p.2 flags files := by
  induction ls with
  | nil => intro index fhm; simp [perFileFrom]
  | cons line rest ih =>
    intro index fhm
    by_cases hm : line_matches line pattern flags <;>
      simp [perFileFrom, hm, hp, ih, List.enumFrom, List.filter]

theorem perFileFrom_eq_perFileOutput (pattern : Str) (flags : Flags)
    (files : List Str) (file_name : Str) (ls : List Str) :
    perFileFrom pattern flags files file_name ls 0 false =
      perFileOutput pattern flags files file_name ls := by
  by_cases hp : flags.print_file_names
  · rw [perFileFrom_names pattern flags files file_name ls hp]
    simp [perFileOutput, hp]
  · rw [perFileFrom_lines pattern flags files file_name ls (by simpa using hp)]
    simp [perFileOutput, hp, List.enum]

theorem grepLinesGo_error (pattern : Str) (flags : Flags) (files : List Str)
    (file_name : Str) (ls : List LineRead) (e : IOError)
    (he : lineError ls = some e) :
    ∀ (index : Nat) (file_has_match : Bool) (acc : List Str),
      grepLinesGo pattern flags files file_name ls index file_has_match acc =
        Except.error e := by
  induction ls with
  | nil => simp [lineError] at he
  | cons l rest ih =>
    intro index fhm acc
    match l with
    | Except.error e2 =>
      simp [lineError] at he
      simp [grepLinesGo, he]
    | Except.ok line =>
      simp only [lineError] at he
      by_cases hm : line_matches line pattern flags
      · by_cases hp : flags.print_file_names
        · by_cases hf : fhm <;> simp [grepLinesGo, hm, hp, hf, ih he]
        · simp [grepLinesGo, hm, hp, ih he]
      · simp [grepLinesGo, hm, ih he]

theorem okLines_of_clean (ls : List LineRead) (he : lineError ls = none) :
    ls = (okLines ls).map Except.ok := by
  induction ls with
  | nil => simp [okLines]
  | cons l rest ih =>
    match l with
    | Except.error e => simp [lineError] at he
    | Except.ok line =>
      simp only [lineError] at he
      simp only [okLines, List.map_cons]
      exact congrArg (List.cons (Except.ok line)) (ih he)

theorem grepGo_characterization (fs : FS) (pattern : Str) (flags : Flags)
    (files : List Str) :
    ∀ (rem acc : List Str),
      grepGo fs pattern flags files rem acc =
        match firstError fs rem with
        | some e => Except.error e
        | none => Except.ok (acc ++ rem.flatMap fun fn =>
            perFileOutput pattern flags files fn (contentOf fs fn)) := by
  intro rem
  induction rem with
  | nil => intro acc; simp [grepGo, firstError]
  | cons fn rest ih =>
    intro acc
    cases hfs : fs fn with
    | error e =>
      have hfe : fileError fs fn = some e := by simp [fileError, hfs]
      simp [grepGo, hfs, firstError, hfe]
    | ok ls =>
      cases hle : lineError ls with
      | some e =>
        have hfe : fileError fs fn = some e := by simp [fileError, hfs, hle]
        simp [grepGo, hfs, firstError, hfe,
          grepLinesGo_error pattern flags files fn ls e hle]
      | none =>
        have hfe : fileError fs fn = none := by simp [fileError, hfs, hle]
        have hrun : grepLinesGo pattern flags files fn ls 0 false acc =
            Except.ok (acc ++ perFileOutput pattern flags files fn
              (okLines ls)) := by
          conv_lhs => rw [okLines_of_clean ls hle]
          rw [grepLinesGo_ok, perFileFrom_eq_perFileOutput]
        simp only [grepGo, hfs, hrun]
        rw [ih]
        simp only [firstError, hfe]
        cases hrest : firstError fs rest with
        | some e => rfl
        | none =>
          simp [contentOf, hfs, List.flatMap_cons, List.append_assoc]

theorem grep_characterization (fs : FS) (pattern : Str) (flags : Flags)
    (files : List Str) :
    grep fs pattern flags files =
      match firstError fs files with
      | some e => Except.error e
      | none => Except.ok (files.flatMap fun fn =>
          perFileOutput pattern flags files fn (contentOf fs fn)) := by
  rw [grep, grepGo_characterization]
  cases firstError fs files <;> simp

theorem okLines_map_ok (ls : List Str) : okLines (ls.map Except.ok) = ls := by
  induction ls with
  | nil => rfl
  | cons l rest ih => simp [okLines, ih]

theorem lineError_map_ok (ls : List Str) : lineError (ls.map Except.ok) = none := by
  induction ls with
  | nil => rfl
  | cons l rest ih => simpa [lineError] using ih

theorem firstError_pureFS (content : Str → List Str) (files : List Str) :
    firstError (pureFS content) files = none := by
  induction files with
  | nil => rfl
  | cons fn rest ih => simp [firstError, fileError, pureFS, lineError_map_ok, ih]

theorem contentOf_pureFS (content : Str → List Str) (fn : Str) :
    contentOf (pureFS content) fn = content fn := by
  simp [contentOf, pureFS, okLines_map_ok]

theorem grep_pure (content : Str → List Str) (pattern : Str) (flags : Flags)
    (files : List Str) :
    grep (pureFS content) pattern flags files =
      Except.ok (files.flatMap fun fn =>
        perFileOutput pattern flags files fn (content fn)) := by
  rw [grep_characterization, firstError_pureFS]
  simp [contentOf_pureFS]

theorem count_flatMap_names (g : Str → List Str) (q : Str → Bool) (fn : Str)
    (hg : ∀ x, g x = if q x then [x] else []) :
    ∀ files : List Str,
      (files.flatMap g).count fn = files.count fn * (if q fn then 1 else 0) := by
  intro files
  induction files with
  | nil => simp
  | cons x rest ih =>
    rw [List.flatMap_cons, List.count_append, ih, List.count_cons, hg x]
    by_cases hx : fn = x
    · subst hx
      by_cases hq : q fn <;> simp [hq, Nat.add_mul, Nat.add_comm]
    · have hbx : (fn == x) = false := by simp [hx]
      have hxf : ¬ x = fn := fun h => hx h.symm
      by_cases hq : q x <;>
        simp [hq, hbx, hxf, List.count_cons, Nat.add_mul]

theorem grepEarlyLinesGo_ok (pattern : Str) (flags : Flags) (files : List Str)
    (file_name : Str) (ls : List Str) :
    ∀ (index : Nat) (acc : List Str),
      grepEarlyLinesGo pattern flags files file_name (ls.map Except.ok) index
        acc =
      Except.ok (acc ++ perFileFrom pattern flags files file_name ls index
        false) := by
  induction ls with
  | nil => intro index acc; simp [grepEarlyLinesGo, perFileFrom]
  | cons line rest ih =>
    intro index acc
    simp only [List.map_cons, grepEarlyLinesGo, perFileFrom]
    by_cases hm : line_matches line pattern flags
    · by_cases hp : flags.print_file_names
      · simp [hm, hp, perFileFrom_capped pattern flags files file_name rest hp]
      · simp [hm, hp, ih]
    · simp [hm, ih]

theorem grepEarlyGo_pure (content : Str → List Str) (pattern : Str)
    (flags : Flags) (files : List Str) :
    ∀ (rem acc : List Str),
      grepEarlyGo (pureFS content) pattern flags files rem acc =
        Except.ok (acc ++ rem.flatMap fun fn =>
          perFileOutput pattern flags files fn (content fn)) := by
  intro rem
  induction rem with
  | nil => intro acc; simp [grepEarlyGo]
  | cons fn rest ih =>
    intro acc
    simp only [grepEarlyGo, pureFS, grepEarlyLinesGo_ok,
      perFileFrom_eq_perFileOutput]
    rw [ih]
    simp [List.flatMap_cons, List.append_assoc]

theorem line_matches_invert_irrel (line pattern : Str) (flags : Flags)
    (b : Bool) :
    line_matches line pattern {flags with invert := b} =
      line_matches line pattern flags := by
  cases flags; rfl

theorem format_result_invert_irrel (file_name : Str) (n : Nat) (line : Str)
    (flags : Flags) (files : List Str) (b : Bool) :
    format_result file_name n line {flags with invert := b} files =
      format_result file_name n line flags files := by
  cases flags; rfl

theorem grep_invert_irrel (fs : FS) (pattern : Str) (flags : Flags) (b : Bool)
    (files : List Str) :
    grep fs pattern {flags with invert := b} files =
      grep fs pattern flags files := by
  obtain ⟨ln, pf, ci, im, mel, iv⟩ := flags
  rw [grep_characterization, grep_characterization]
  have hout : ∀ (fn : Str) (ls : List Str),
      perFileOutput pattern ⟨ln, pf, ci, im, mel, b⟩ files fn ls =
        perFileOutput pattern ⟨ln, pf, ci, im, mel, iv⟩ files fn ls := by
    intro fn ls; rfl
  cases firstError fs files with
  | some e => rfl
  | none => simp only [hout]

theorem count_eq_one_of_nodup_mem (fn : Str) :
    ∀ l : List Str, l.Nodup → fn ∈ l → l.count fn = 1 := by
  intro l
  induction l with
  | nil => intro _ h; simp at h
  | cons x rest ih =>
    intro hnd hm
    rw [List.count_cons]
    rcases List.mem_cons.1 hm with h | h
    · subst h
      have hx : fn ∉ rest := (List.nodup_cons.1 hnd).1
      rw [List.count_eq_zero.2 hx]
      simp
    · have hne2 : fn ≠ x := by
        rintro rfl
        exact (List.nodup_cons.1 hnd).1 h
      rw [ih (List.nodup_cons.1 hnd).2 h]
      simp [hne2, Ne.symm hne2]

/-- Claim C1: the line matcher returns the reference result. With
`invert_match = false` (flag fields written as an explicit record
`⟨line_numbers, print_file_names, case_insensitive, invert_match,
match_entire_line, invert⟩`), it returns true iff, after lower-casing both
sides when `case_insensitive`, the line equals the pattern in whole-line
mode and contains it as a substring otherwise; in particular an empty
pattern matches every line in substring mode and exactly the empty lines
in whole-line mode. -/
theorem C1_line_matcher_reference (line pattern : Str)
    (ln pf ci mel iv : Bool) :
    (line_matches line pattern ⟨ln, pf, ci, false, mel, iv⟩ = true ↔
      (if mel then
        (if ci then toLowercase line else line) =
          (if ci then toLowercase pattern else pattern)
      else
        (if ci then toLowercase pattern else pattern) <:+:
          (if ci then toLowercase line else line))) ∧
    line_matches line [] ⟨ln, pf, ci, false, false, iv⟩ = true ∧
    (line_matches line [] ⟨ln, pf, ci, false, true, iv⟩ = true ↔
      line = []) := by
  refine ⟨?_, ?_, ?_⟩
  · cases mel <;> cases ci <;>
      simp [line_matches, containsSub]
  · cases ci <;>
      simp [line_matches, containsSub, toLowercase, List.nil_infix]
  · cases ci <;>
      simp [line_matches, toLowercase, List.map_eq_nil_iff]

/-- Claim C2: invert law. For any fixed setting of the other flags, the
matcher with `invert_match = true` returns exactly the negation of the
matcher with `invert_match = false` on the same line and pattern. -/
theorem C2_invert_law (line pattern : Str) (ln pf ci mel iv iv2 : Bool) :
    line_matches line pattern ⟨ln, pf, ci, true, mel, iv⟩ =
      !line_matches line pattern ⟨ln, pf, ci, false, mel, iv2⟩ := by
  simp [line_matches]

/-- Claim C3: the result formatter obeys the dispatch table: file name
alone under `print_file_names`; otherwise `name:number:line` or
`number:line` under `line_numbers` according to whether more than one file
was given; otherwise `name:line` or the bare line likewise. -/
theorem C3_format_dispatch (file_name : Str) (line_number : Nat) (line : Str)
    (files : List Str) (ln ci im mel iv : Bool) :
    format_result file_name line_number line ⟨ln, true, ci, im, mel, iv⟩
        files = file_name ∧
    format_result file_name line_number line ⟨true, false, ci, im, mel, iv⟩
        files =
      (if files.length > 1 then
        file_name ++ ':' :: natStr line_number ++ ':' :: line
      else natStr line_number ++ ':' :: line) ∧
    format_result file_name line_number line ⟨false, false, ci, im, mel, iv⟩
        files =
      (if files.length > 1 then file_name ++ ':' :: line else line) := by
  refine ⟨?_, ?_, ?_⟩ <;> simp [format_result]

/-- Claim C4: filenames-only cap. On an error-free file system, with
`print_file_names = true` and a duplicate-free file list, a listed file
with at least one matching line contributes exactly one result entry (its
name) and a listed file with no matching line contributes none. -/
theorem C4_filenames_only_cap (content : Str → List Str) (pattern : Str)
    (flags : Flags) (files : List Str) (fn : Str)
    (hp : flags.print_file_names = true) (hnd : files.Nodup)
    (hmem : fn ∈ files) :
    ∃ res, grep (pureFS content) pattern flags files = Except.ok res ∧
      res.count fn =
        (if (content fn).any (fun l => line_matches l pattern flags) then 1
        else 0) := by
  refine ⟨_, grep_pure content pattern flags files, ?_⟩
  rw [count_flatMap_names
    (fun g => perFileOutput pattern flags files g (content g))
    (fun g => (content g).any fun l => line_matches l pattern flags) fn
    (fun x => by simp [perFileOutput, hp]) files]
  rw [count_eq_one_of_nodup_mem fn files hnd hmem, Nat.one_mul]

/-- Witness for C4 at a concrete two-file search: with flags `-l` and
pattern "cat", file a.txt (lines "Cats", "dog") has no match and b.txt
(line "cat") has one, so b.txt appears exactly once. -/
theorem C4_filenames_only_cap_witness :
    ∃ res, grep (pureFS wContent) ("cat".data) wFlagsL
        [("a.txt".data), ("b.txt".data)] = Except.ok res ∧
      res.count ("b.txt".data) =
        (if (wContent ("b.txt".data)).any
            (fun l => line_matches l ("cat".data) wFlagsL) then 1
        else 0) :=
  C4_filenames_only_cap wContent ("cat".data) wFlagsL
    [("a.txt".data), ("b.txt".data)] ("b.txt".data)
    (by decide) (by decide) (by decide)

/-- Claim C5: fail-fast error handling. The search equals the first I/O
error hit in processing order when there is one — a bare failure value
carrying no result list — and otherwise the accumulated per-file results
of every listed file. -/
theorem C5_fail_fast (fs : FS) (pattern : Str) (flags : Flags)
    (files : List Str) :
    grep fs pattern flags files =
      match firstError fs files with
      | some e => Except.error e
      | none => Except.ok (files.flatMap fun fn =>
          perFileOutput pattern flags files fn (contentOf fs fn)) :=
  grep_characterization fs pattern flags files

/-- Claim C6: output order. On an error-free file system the result list
is the concatenation, in the order the file names were given, of each
file's entries in line order; an empty file list yields an empty result
list on any file system. -/
theorem C6_output_order (fs : FS) (content : Str → List Str) (pattern : Str)
    (flags : Flags) (files : List Str) :
    grep (pureFS content) pattern flags files =
      Except.ok (files.flatMap fun fn =>
        perFileOutput pattern flags files fn (content fn)) ∧
    grep fs pattern flags [] = Except.ok [] :=
  ⟨grep_pure content pattern flags files, rfl⟩

/-- Claim C7: original-case output. With `case_insensitive = true` and
`print_file_names = false`, every result entry is formatted from a line
exactly as it is stored in the file (found at its original index), never
from the lower-cased copy used for the match decision. -/
theorem C7_original_case (content : Str → List Str) (pattern : Str)
    (flags : Flags) (files : List Str)
    (hci : flags.case_insensitive = true)
    (hp : flags.print_file_names = false) :
    ∃ res, grep (pureFS content) pattern flags files = Except.ok res ∧
      ∀ entry ∈ res, ∃ fn i line, fn ∈ files ∧
        (content fn)[i]? = some line ∧
        line_matches line pattern flags = true ∧
        entry = format_result fn (i + 1) line flags files := by
  refine ⟨_, grep_pure content pattern flags files, ?_⟩
  intro entry he
  rw [List.mem_flatMap] at he
  obtain ⟨fn, hfn, hmem⟩ := he
  rw [perFileOutput, if_neg (by simp [hp])] at hmem
  rw [List.mem_map] at hmem
  obtain ⟨p, hp2, hfmt⟩ := hmem
  rw [List.mem_filter] at hp2
  obtain ⟨hpe, hpm⟩ := hp2
  obtain ⟨i, l⟩ := p
  exact ⟨fn, i, l, hfn, List.mem_enum_iff_getElem?.1 hpe, hpm, hfmt.symm⟩

/-- Witness for C7: searching "cat" case-insensitively over a.txt and
b.txt, whose first file stores the mixed-case line "Cats". -/
theorem C7_original_case_witness :
    ∃ res, grep (pureFS wContent) ("cat".data) wFlagsI
        [("a.txt".data), ("b.txt".data)] = Except.ok res ∧
      ∀ entry ∈ res, ∃ fn i line, fn ∈ [("a.txt".data), ("b.txt".data)] ∧
        (wContent fn)[i]? = some line ∧
        line_matches line ("cat".data) wFlagsI = true ∧
        entry = format_result fn (i + 1) line wFlagsI
          [("a.txt".data), ("b.txt".data)] :=
  C7_original_case wContent ("cat".data) wFlagsI
    [("a.txt".data), ("b.txt".data)] (by decide) (by decide)

/-- Claim C8: revision equivalence. On error-free inputs the spec's
early-break driver and the implemented cap-and-keep-scanning driver return
the same outcome, hence the same result sequence. -/
theorem C8_revision_equivalence (content : Str → List Str) (pattern : Str)
    (flags : Flags) (files : List Str) :
    grepEarly (pureFS content) pattern flags files =
      grep (pureFS content) pattern flags files := by
  rw [grep_pure, grepEarly, grepEarlyGo_pure]
  simp

/-- Claim C9: dead duplicate field. Changing only the `invert` field of
`Flags` changes nothing in `line_matches`, `format_result` or `grep`, and
`Flags.new` always sets `invert` equal to `invert_match`. -/
theorem C9_dead_invert_field :
    (∀ (line pattern : Str) (flags : Flags) (b : Bool),
      line_matches line pattern {flags with invert := b} =
        line_matches line pattern flags) ∧
    (∀ (file_name : Str) (n : Nat) (line : Str) (flags : Flags)
        (files : List Str) (b : Bool),
      format_result file_name n line {flags with invert := b} files =
        format_result file_name n line flags files) ∧
    (∀ (fs : FS) (pattern : Str) (flags : Flags) (files : List Str)
        (b : Bool),
      grep fs pattern {flags with invert := b} files =
        grep fs pattern flags files) ∧
    (∀ toks : List Str, (Flags.new toks).invert = (Flags.new toks).invert_match) :=
  ⟨line_matches_invert_irrel,
   format_result_invert_irrel,
   fun fs pattern flags files b => grep_invert_irrel fs pattern flags b files,
   fun _ => rfl⟩

/-- Claim C10: per-occurrence filenames-only cap. If a matching file name
occurs k times in the input list, the filenames-only results carry k
entries with that name: the cap is per list position, not per distinct
name. -/
theorem C10_per_occurrence_cap (content : Str → List Str) (pattern : Str)
    (flags : Flags) (files : List Str) (fn : Str)
    (hp : flags.print_file_names = true)
    (hm : (content fn).any (fun l => line_matches l pattern flags) = true) :
    ∃ res, grep (pureFS content) pattern flags files = Except.ok res ∧
      res.count fn = files.count fn := by
  refine ⟨_, grep_pure content pattern flags files, ?_⟩
  rw [count_flatMap_names
    (fun g => perFileOutput pattern flags files g (content g))
    (fun g => (content g).any fun l => line_matches l pattern flags) fn
    (fun x => by simp [perFileOutput, hp]) files]
  simp [hm]

/-- Witness for C10: b.txt listed twice with one matching line yields two
entries named b.txt. -/
theorem C10_per_occurrence_cap_witness :
    ∃ res, grep (pureFS wContent) ("cat".data) wFlagsL
        [("b.txt".data), ("b.txt".data)] = Except.ok res ∧
      res.count ("b.txt".data) =
        List.count ("b.txt".data) [("b.txt".data), ("b.txt".data)] :=
  C10_per_occurrence_cap wContent ("cat".data) wFlagsL
    [("b.txt".data), ("b.txt".data)] ("b.txt".data) (by decide) (by decide)

end Grep
